import Mathlib

/-!
Verification of the prismo device-communication stack.

This file shallowly embeds the core of the repository in Lean 4:

* `Prismo.Packet` — the COBS-style frame codec of
  `src/prismo/devices/fluidic/packet.py` (`PacketStream.write`,
  `PacketStream.read`), with the serial socket modelled as a byte list:
  `write` returns the bytes put on the wire, `read` consumes a byte list
  and returns the decoded payload (or the error raised) together with the
  bytes left unconsumed on the stream.
* `Prismo.Micro` — the Modbus valve driver, and the `TreeValves`
  multiplexing layer of `src/prismo/devices/microfluidic.py`.
* `Prismo.Ports` — the reference-counted port registry of
  `src/prismo/devices/ports.py`.
* `Prismo.Fluidic` — `FlowController._read_packet`, the `Sipper` well
  setter, and the `FlowController.__init__` argument binding of
  `src/prismo/devices/fluidic/fluidic.py`.

Machine bytes are modelled as `Nat` (payload bytes are `≤ 255` by the
`bytes` type in Python; length-prefix bytes produced by the codec are
`≤ 255` by construction).  Fallible code returns `Except`, and stateful
code is modelled by explicit state passing.
-/

namespace Prismo.Packet

/-- `bytearray` index assignment `out[i] = v` (the index is always in
bounds where `write` uses it; out-of-range is a no-op here). -/
def setAt : List Nat → Nat → Nat → List Nat
  | [], _, _ => []
  | _ :: t, 0, v => v :: t
  | h :: t, i + 1, v => h :: setAt t i v

/-- The mutable state of the encoding loop in `PacketStream.write`:
the output buffer `out`, the running run length `offset`, and the index
`offsetIdx` of the pending length-byte placeholder. -/
structure WSt where
  out : List Nat
  offset : Nat
  offsetIdx : Nat
deriving Repr, DecidableEq

/-- One iteration of the `for b in data` loop of `PacketStream.write`. -/
def writeStep (st : WSt) (b : Nat) : WSt :=
  let out := if b ≠ 0 then st.out ++ [b] else st.out
  let offset := if b ≠ 0 then st.offset + 1 else st.offset
  if b = 0 ∨ offset = 255 then
    let out3 := setAt (out ++ [0]) st.offsetIdx offset
    ⟨out3, 1, out3.length - 1⟩
  else
    ⟨out, offset, st.offsetIdx⟩

/-- The fix-up after the loop in `PacketStream.write`:
`if offset_idx != len(out) - 1 or data[-1] == 0: out[offset_idx] = offset;
out.append(0)`. -/
def fixup (st : WSt) (lastZero : Bool) : List Nat :=
  if st.offsetIdx ≠ st.out.length - 1 ∨ lastZero = true then
    setAt st.out st.offsetIdx st.offset ++ [0]
  else
    st.out

/-- `PacketStream.write`: encodes `data` into the bytes put on the wire.
An empty `data` returns immediately, writing nothing. -/
def write (data : List Nat) : List Nat :=
  if data = [] then []
  else fixup (data.foldl writeStep ⟨[0], 1, 0⟩) (data.getLastD 1 == 0)

/-- Errors `PacketStream.read` can raise: `TimeoutError` from
`_timeout_read`, and the `ValueError` for an unexpected zero byte in
packet data. -/
inductive ReadErr
  | timeout
  | corrupt
deriving Repr, DecidableEq

/-- The resynchronization loop
`while self._timeout_read(1)[0] != 0: pass`: consume bytes up to and
including the next delimiter; `none` when the stream runs out
(a `TimeoutError` in the source). -/
def resync : List Nat → Option (List Nat)
  | [] => none
  | b :: t => if b = 0 then some t else resync t

/-- The `while size != 0` loop of `PacketStream.read`.  `acc` is the
`out` buffer, `size` the last length byte read, `s` the unread stream.
Returns the decoded payload or the raised error, together with the
remaining stream. -/
def readLoop (acc : List Nat) (size : Nat) (s : List Nat) :
    Except ReadErr (List Nat) × List Nat :=
  if s.length < size - 1 then (.error .timeout, [])
  else if 0 ∈ s.take (size - 1) then
    match resync (s.drop (size - 1)) with
    | some rest => (.error .corrupt, rest)
    | none => (.error .timeout, [])
  else
    match hd : s.drop (size - 1) with
    | [] => (.error .timeout, [])
    | nsize :: s2 =>
      if nsize = 0 then (.ok (acc ++ s.take (size - 1)), s2)
      else if size ≠ 255 then readLoop (acc ++ s.take (size - 1) ++ [0]) nsize s2
      else readLoop (acc ++ s.take (size - 1)) nsize s2
termination_by s.length
decreasing_by
  all_goals
    have h := congrArg List.length hd
    simp only [List.length_drop, List.length_cons] at h
    omega

/-- `PacketStream.read`: skip the leading `while size == 0` loop, then
run the main decode loop. -/
def read (s : List Nat) : Except ReadErr (List Nat) × List Nat :=
  match s.dropWhile (· == 0) with
  | [] => (.error .timeout, [])
  | size :: rest => readLoop [] size rest

/-- Run-structured restatement of the encoding `write` produces for a
nonempty payload: split off the first run (nonzero bytes, capped at 254),
emit its length byte, and recurse past the delimiter.  Proved equal to
`write` on nonempty payloads in `write_eq_encode`; used only as proof
scaffolding. -/
def encode (data : List Nat) : List Nat :=
  if ((data.takeWhile (· ≠ 0)).take 254).length = 254 then
    match hc : data.drop 254 with
    | [] => 255 :: ((data.takeWhile (· ≠ 0)).take 254 ++ [0])
    | c :: rest1 => 255 :: ((data.takeWhile (· ≠ 0)).take 254 ++ encode (c :: rest1))
  else
    match hd : data.drop ((data.takeWhile (· ≠ 0)).take 254).length with
    | [] =>
      (((data.takeWhile (· ≠ 0)).take 254).length + 1) ::
        ((data.takeWhile (· ≠ 0)).take 254 ++ [0])
    | _ :: rest2 =>
      (((data.takeWhile (· ≠ 0)).take 254).length + 1) ::
        ((data.takeWhile (· ≠ 0)).take 254 ++ encode rest2)
termination_by data.length
decreasing_by
  · have h1 := congrArg List.length hc
    simp only [List.length_drop, List.length_cons] at h1 ⊢
    omega
  · have h1 := congrArg List.length hd
    simp only [List.length_drop, List.length_cons] at h1 ⊢
    omega

/-- Byte-at-a-time restatement of the encoder, tracking the partially
built current run `pre` exactly as the fold state of `write` does; `lz`
records whether the whole payload ends in a delimiter (the
`data[-1] == 0` test of the source).  Proof scaffolding only. -/
def encodeFrom : List Nat → List Nat → Bool → List Nat
  | pre, [], lz =>
    if pre = [] then (if lz then [1, 0] else [0]) else (pre.length + 1) :: (pre ++ [0])
  | pre, b :: data2, lz =>
    if b = 0 then (pre.length + 1) :: (pre ++ encodeFrom [] data2 lz)
    else if pre.length = 253 then 255 :: ((pre ++ [b]) ++ encodeFrom [] data2 lz)
    else encodeFrom (pre ++ [b]) data2 lz

theorem setAt_append_cons (A B : List Nat) (x v : Nat) :
    setAt (A ++ x :: B) A.length v = A ++ v :: B := by
  induction A with
  | nil => rfl
  | cons a A ih => simp only [List.cons_append, List.length_cons, setAt, List.append_eq, ih]

theorem getLastD_irrel (m : List Nat) (hm : m ≠ []) (d e : Nat) :
    m.getLastD d = m.getLastD e := by
  cases m with
  | nil => exact absurd rfl hm
  | cons b t => rfl

theorem getLastD_append_right (m : List Nat) (hm : m ≠ []) :
    ∀ (l : List Nat) (d : Nat), (l ++ m).getLastD d = m.getLastD d := by
  intro l
  induction l with
  | nil => intro d; rfl
  | cons a l ih =>
    intro d
    rw [List.cons_append, List.getLastD_cons, ih a, getLastD_irrel m hm a d]

theorem setAt_length (l : List Nat) : ∀ (i v : Nat), (setAt l i v).length = l.length := by
  induction l with
  | nil => intro i v; rfl
  | cons h t ih =>
    intro i v
    cases i with
    | zero => rfl
    | succ j => simp only [setAt, List.length_cons, ih]

theorem writeStep_zero (A pre : List Nat) :
    writeStep ⟨A ++ 0 :: pre, pre.length + 1, A.length⟩ 0
      = ⟨(A ++ (pre.length + 1) :: pre) ++ [0], 1, (A ++ (pre.length + 1) :: pre).length⟩ := by
  have h1 : (A ++ 0 :: pre) ++ [0] = A ++ 0 :: (pre ++ [0]) := by simp
  have h2 : setAt (A ++ 0 :: (pre ++ [0])) A.length (pre.length + 1)
      = A ++ (pre.length + 1) :: (pre ++ [0]) := setAt_append_cons ..
  simp [writeStep, h1, h2, List.length_append]

theorem writeStep_nonzero (A pre : List Nat) (b : Nat) (hb : b ≠ 0) (hlen : pre.length ≤ 252) :
    writeStep ⟨A ++ 0 :: pre, pre.length + 1, A.length⟩ b
      = ⟨A ++ 0 :: (pre ++ [b]), (pre ++ [b]).length + 1, A.length⟩ := by
  have hcond : ¬(b = 0 ∨ pre.length + 1 + 1 = 255) := by
    rintro (h | h)
    · exact hb h
    · omega
  simp only [writeStep, ne_eq, hb, not_false_eq_true, if_true, ite_true, if_false, ite_false]
  rw [if_neg (by simp; omega : ¬(False ∨ pre.length + 1 + 1 = 255))]
  simp [WSt.mk.injEq, List.length_append]

theorem writeStep_cap (A pre : List Nat) (b : Nat) (hb : b ≠ 0) (hlen : pre.length = 253) :
    writeStep ⟨A ++ 0 :: pre, pre.length + 1, A.length⟩ b
      = ⟨(A ++ 255 :: (pre ++ [b])) ++ [0], 1, (A ++ 255 :: (pre ++ [b])).length⟩ := by
  have hoff : pre.length + 1 + 1 = 255 := by omega
  have h2 : setAt (A ++ 0 :: (pre ++ [b, 0])) A.length 255
      = A ++ 255 :: (pre ++ [b, 0]) := setAt_append_cons ..
  simp [writeStep, hb, hoff, h2, List.length_append, hlen, setAt_length]

theorem write_from (data : List Nat) :
    ∀ (A pre : List Nat) (lz : Bool), 0 ∉ pre → pre.length ≤ 253 →
      fixup (data.foldl writeStep ⟨A ++ 0 :: pre, pre.length + 1, A.length⟩) lz
        = A ++ encodeFrom pre data lz := by
  induction data with
  | nil =>
    intro A pre lz h0 hlen
    simp only [List.foldl_nil, fixup, encodeFrom]
    by_cases hp : pre = []
    · subst hp
      simp only [List.length_nil, Nat.zero_add, if_pos rfl]
      cases lz with
      | false => simp
      | true =>
        have h2 : setAt (A ++ 0 :: ([] : List Nat)) A.length 1 = A ++ 1 :: [] :=
          setAt_append_cons ..
        simp [h2]
    · have hplen : pre.length ≠ 0 := fun hc => hp (List.eq_nil_of_length_eq_zero hc)
      have hcond : A.length ≠ (A ++ 0 :: pre).length - 1 := by
        simp only [List.length_append, List.length_cons]
        omega
      rw [if_pos (Or.inl hcond), if_neg hp, setAt_append_cons]
      simp
  | cons b data2 ih =>
    intro A pre lz h0 hlen
    rw [List.foldl_cons]
    by_cases hb : b = 0
    · subst hb
      rw [writeStep_zero]
      have hstep := ih (A ++ (pre.length + 1) :: pre) [] lz (by simp) (by simp)
      simp only [List.length_nil, Nat.zero_add] at hstep
      rw [hstep]
      simp [encodeFrom]
    · by_cases hcap : pre.length = 253
      · rw [writeStep_cap A pre b hb hcap]
        have hstep := ih (A ++ 255 :: (pre ++ [b])) [] lz (by simp) (by simp)
        simp only [List.length_nil, Nat.zero_add] at hstep
        rw [hstep]
        simp [encodeFrom, hb, hcap]
      · rw [writeStep_nonzero A pre b hb (by omega)]
        have h0' : 0 ∉ pre ++ [b] := by
          simp only [List.mem_append, List.mem_singleton]
          rintro (h | h)
          · exact h0 h
          · exact hb h.symm
        have hstep := ih A (pre ++ [b]) lz h0' (by simp; omega)
        rw [hstep]
        simp [encodeFrom, hb, hcap]

end Prismo.Packet

namespace Prismo.Packet
theorem takeWhile_eq_self (l : List Nat) (h : 0 ∉ l) : l.takeWhile (· ≠ 0) = l := by
  induction l with
  | nil => rfl
  | cons a l ih =>
    have ha : a ≠ 0 := fun hc => h (by simp [hc])
    have hl : 0 ∉ l := fun hc => h (by simp [hc])
    rw [List.takeWhile_cons_of_pos (by simpa using ha), ih hl]

theorem takeWhile_append_zero (pre l : List Nat) (h : 0 ∉ pre) :
    (pre ++ 0 :: l).takeWhile (· ≠ 0) = pre := by
  induction pre with
  | nil => simp
  | cons a pre ih =>
    have ha : a ≠ 0 := fun hc => h (by simp [hc])
    have hl : 0 ∉ pre := fun hc => h (by simp [hc])
    rw [List.cons_append, List.takeWhile_cons_of_pos (by simpa using ha), ih hl]

theorem takeWhile_append_nz (pre l : List Nat) (b : Nat) (h : 0 ∉ pre) (hb : b ≠ 0) :
    (pre ++ b :: l).takeWhile (· ≠ 0) = pre ++ b :: (l.takeWhile (· ≠ 0)) := by
  induction pre with
  | nil => rw [List.nil_append, List.takeWhile_cons_of_pos (by simpa using hb), List.nil_append]
  | cons a pre ih =>
    have ha : a ≠ 0 := fun hc => h (by simp [hc])
    have hl : 0 ∉ pre := fun hc => h (by simp [hc])
    rw [List.cons_append, List.takeWhile_cons_of_pos (by simpa using ha), ih hl, List.cons_append]

/-- Shape of `encode` on a payload whose bytes are all nonzero and fewer
than 254. -/
theorem encode_short (run : List Nat) (h0 : 0 ∉ run) (hlen : run.length ≤ 253) :
    encode run = (run.length + 1) :: (run ++ [0]) := by
  rw [encode.eq_def]
  rw [takeWhile_eq_self run h0, List.take_of_length_le (by omega : run.length ≤ 254)]
  rw [if_neg (by omega : ¬ run.length = 254)]
  split
  · rfl
  · rename_i x rest2 heq
    rw [List.drop_length] at heq
    exact absurd heq (by simp)

/-- Shape of `encode` on a payload starting with a short run followed by
a delimiter. -/
theorem encode_zero (run l : List Nat) (h0 : 0 ∉ run) (hlen : run.length ≤ 253) :
    encode (run ++ 0 :: l) = (run.length + 1) :: (run ++ encode l) := by
  rw [encode.eq_def]
  rw [takeWhile_append_zero run l h0, List.take_of_length_le (by omega : run.length ≤ 254)]
  rw [if_neg (by omega : ¬ run.length = 254)]
  split
  · rename_i heq
    rw [List.drop_left] at heq
    exact absurd heq (by simp)
  · rename_i x rest2 heq
    rw [List.drop_left] at heq
    injection heq with h1 h2
    subst h2
    rfl

/-- Shape of `encode` on a payload starting with a full 254-byte run. -/
theorem encode_cap (run l : List Nat) (h0 : 0 ∉ run) (hlen : run.length = 254) :
    encode (run ++ l) = 255 :: (run ++ (if l = [] then [0] else encode l)) := by
  rw [encode.eq_def]
  have htw : ((run ++ l).takeWhile (· ≠ 0)).take 254 = run := by
    cases l with
    | nil =>
      rw [List.append_nil, takeWhile_eq_self run h0, List.take_of_length_le (by omega)]
    | cons c rest =>
      by_cases hc : c = 0
      · subst hc
        rw [takeWhile_append_zero run rest h0, List.take_of_length_le (by omega)]
      · rw [takeWhile_append_nz run rest c h0 hc]
        have : run ++ c :: rest.takeWhile (· ≠ 0) = run ++ (c :: rest.takeWhile (· ≠ 0)) := rfl
        rw [this, ← hlen, List.take_left]
  rw [htw, if_pos hlen]
  have hdrop : (run ++ l).drop 254 = l := List.drop_left' hlen
  split
  · rename_i heq
    rw [hdrop] at heq
    subst heq
    simp
  · rename_i c rest1 heq
    rw [hdrop] at heq
    subst heq
    simp



theorem encodeFrom_eq_encode :
    ∀ (data pre : List Nat) (lz : Bool), 0 ∉ pre → pre.length ≤ 253 →
      pre ++ data ≠ [] → lz = ((pre ++ data).getLastD 1 == 0) →
      encodeFrom pre data lz = encode (pre ++ data) := by
  intro data
  induction data with
  | nil =>
    intro pre lz h0 hlen hne hlz
    rw [List.append_nil] at hne ⊢
    rw [encode_short pre h0 hlen]
    simp only [encodeFrom, if_neg hne]
  | cons b data2 ih =>
    intro pre lz h0 hlen hne hlz
    by_cases hb : b = 0
    · subst hb
      rw [encode_zero pre data2 h0 hlen]
      simp only [encodeFrom, if_pos rfl]
      by_cases hd2 : data2 = []
      · subst hd2
        have hlz' : lz = true := by
          rw [hlz, getLastD_append_right (0 :: ([] : List Nat)) (by simp) pre 1]
          rfl
        subst hlz'
        rw [encode_short [] (by simp) (by simp)]
        rfl
      · rw [ih [] lz (by simp) (by simp) (by simpa using hd2)
          (by
            rw [hlz, List.nil_append,
              getLastD_append_right (0 :: data2) (by simp) pre 1, List.getLastD_cons,
              getLastD_irrel data2 hd2 0 1])]
        simp
    · by_cases hcap : pre.length = 253
      · have h0' : 0 ∉ pre ++ [b] := by
          simp only [List.mem_append, List.mem_singleton]
          rintro (h | h)
          · exact h0 h
          · exact hb h.symm
        have hsplit : pre ++ b :: data2 = (pre ++ [b]) ++ data2 := by simp
        rw [hsplit, encode_cap (pre ++ [b]) data2 h0' (by simp [hcap])]
        simp only [encodeFrom, if_neg hb, if_pos hcap]
        by_cases hd2 : data2 = []
        · subst hd2
          have hlz' : lz = false := by
            rw [hlz, getLastD_append_right (b :: ([] : List Nat)) (by simp) pre 1]
            simpa using hb
          subst hlz'
          rw [if_pos rfl]
          rfl
        · rw [if_neg hd2]
          rw [ih [] lz (by simp) (by simp) (by simpa using hd2)
            (by
              rw [hlz, List.nil_append, hsplit,
                getLastD_append_right data2 hd2 (pre ++ [b]) 1])]
          simp
      · have h0' : 0 ∉ pre ++ [b] := by
          simp only [List.mem_append, List.mem_singleton]
          rintro (h | h)
          · exact h0 h
          · exact hb h.symm
        have hsplit : pre ++ b :: data2 = (pre ++ [b]) ++ data2 := by simp
        simp only [encodeFrom, if_neg hb, if_neg hcap]
        rw [hsplit]
        exact ih (pre ++ [b]) lz h0' (by simp; omega) (by simp) (by rw [hlz, hsplit])



theorem write_eq_encode (data : List Nat) (h : data ≠ []) : write data = encode data := by
  rw [write, if_neg h]
  have hm := write_from data [] [] (data.getLastD 1 == 0) (by simp) (by simp)
  simp only [List.nil_append, List.length_nil, Nat.zero_add] at hm
  rw [hm]
  exact encodeFrom_eq_encode data [] (data.getLastD 1 == 0) (by simp) (by simp)
    (by simpa using h) (by simp)

theorem encode_cons_shape (data : List Nat) : ∃ L t, encode data = L :: t ∧ L ≠ 0 := by
  rw [encode.eq_def]
  split
  · split
    · exact ⟨255, _, rfl, by omega⟩
    · exact ⟨255, _, rfl, by omega⟩
  · split
    · exact ⟨_, _, rfl, by omega⟩
    · exact ⟨_, _, rfl, by omega⟩

theorem dropWhile_ne_head (l : List Nat) :
    ∀ (r : Nat) (t : List Nat), l.dropWhile (· ≠ 0) = r :: t → r = 0 := by
  induction l with
  | nil => intro r t h; exact absurd h (by simp)
  | cons a l ih =>
    intro r t h
    by_cases ha : a = 0
    · subst ha
      rw [List.dropWhile_cons_of_neg (by simp)] at h
      exact (List.cons.injEq .. ▸ h).1.symm ▸ rfl
    · rw [List.dropWhile_cons_of_pos (by simpa using ha)] at h
      exact ih r t h

theorem readLoop_group_end (acc run extra : List Nat) (size : Nat)
    (hsz : size - 1 = run.length) (h0 : 0 ∉ run) :
    readLoop acc size (run ++ 0 :: extra) = (.ok (acc ++ run), extra) := by
  rw [readLoop.eq_def]
  have hlen' : ¬ ((run ++ 0 :: extra).length < size - 1) := by
    simp only [List.length_append, List.length_cons, hsz]
    omega
  rw [if_neg hlen', hsz]
  have htake : (run ++ 0 :: extra).take run.length = run := List.take_left ..
  have hdrop : (run ++ 0 :: extra).drop run.length = 0 :: extra := List.drop_left ..
  rw [htake, if_neg h0]
  split
  · rename_i heq
    rw [hdrop] at heq
    exact absurd heq (by simp)
  · rename_i nsize s2 heq
    rw [hdrop] at heq
    injection heq with h1 h2
    subst h1
    subst h2
    rw [if_pos rfl]

theorem readLoop_group_cont (acc run extra : List Nat) (size nsize : Nat)
    (hsz : size - 1 = run.length) (h0 : 0 ∉ run) (hn : nsize ≠ 0) :
    readLoop acc size (run ++ nsize :: extra)
      = if size = 255 then readLoop (acc ++ run) nsize extra
        else readLoop (acc ++ run ++ [0]) nsize extra := by
  rw [readLoop.eq_def]
  have hlen' : ¬ ((run ++ nsize :: extra).length < size - 1) := by
    simp only [List.length_append, List.length_cons, hsz]
    omega
  rw [if_neg hlen', hsz]
  have htake : (run ++ nsize :: extra).take run.length = run := List.take_left ..
  have hdrop : (run ++ nsize :: extra).drop run.length = nsize :: extra := List.drop_left ..
  rw [htake, if_neg h0]
  split
  · rename_i heq
    rw [hdrop] at heq
    exact absurd heq (by simp)
  · rename_i nsize' s2 heq
    rw [hdrop] at heq
    injection heq with h1 h2
    subst h1
    subst h2
    rw [if_neg hn]
    rcases eq_or_ne size 255 with h255 | h255
    · simp [h255]
    · simp [h255]

theorem readLoop_encode_bound :
    ∀ (n : Nat) (data : List Nat), data.length ≤ n →
      ∀ (acc extra : List Nat) (L : Nat) (t : List Nat),
        encode data = L :: t →
        readLoop acc L (t ++ extra) = (.ok (acc ++ data), extra) := by
  intro n
  induction n with
  | zero =>
    intro data hlen acc extra L t hE
    have hdata : data = [] := List.eq_nil_of_length_eq_zero (by omega)
    subst hdata
    rw [encode_short [] (by simp) (by simp)] at hE
    injection hE with h1 h2
    subst h1
    subst h2
    have := readLoop_group_end acc [] extra 1 (by simp) (by simp)
    simpa using this
  | succ n ih =>
    intro data hlen acc extra L t hE
    by_cases hnil : data = []
    · subst hnil
      rw [encode_short [] (by simp) (by simp)] at hE
      injection hE with h1 h2
      subst h1
      subst h2
      have := readLoop_group_end acc [] extra 1 (by simp) (by simp)
      simpa using this
    · by_cases hcap : 254 ≤ (data.takeWhile (· ≠ 0)).length
      · have hrunlen : ((data.takeWhile (· ≠ 0)).take 254).length = 254 := by
          rw [List.length_take]
          omega
        have h0run : 0 ∉ (data.takeWhile (· ≠ 0)).take 254 := by
          intro hm
          have hm2 := List.take_subset 254 _ hm
          have := List.mem_takeWhile_imp hm2
          simp at this
        have hdata : data
            = (data.takeWhile (· ≠ 0)).take 254
              ++ ((data.takeWhile (· ≠ 0)).drop 254 ++ data.dropWhile (· ≠ 0)) := by
          conv_lhs => rw [← List.takeWhile_append_dropWhile (p := (· ≠ 0)) (l := data)]
          rw [← List.append_assoc, List.take_append_drop]
        set run := (data.takeWhile (· ≠ 0)).take 254 with hrun
        set X := (data.takeWhile (· ≠ 0)).drop 254 ++ data.dropWhile (· ≠ 0) with hX
        rw [hdata, encode_cap run X h0run hrunlen] at hE
        injection hE with h1 h2
        subst h1
        by_cases hXnil : X = []
        · subst h2
          rw [if_pos hXnil] at *
          rw [List.append_assoc, List.singleton_append]
          have := readLoop_group_end acc run extra 255 (by omega) h0run
          rw [this, hdata, hXnil, List.append_nil]
        · rw [if_neg hXnil] at h2
          obtain ⟨L', t', hEX, hL'⟩ := encode_cons_shape X
          subst h2
          rw [hEX, List.append_assoc, List.cons_append]
          have hstep := readLoop_group_cont acc run (t' ++ extra) 255 L' (by omega) h0run hL'
          rw [hstep, if_pos rfl]
          have hXlen : X.length ≤ n := by
            have := congrArg List.length hdata
            simp only [List.length_append, hrunlen] at this
            omega
          rw [ih X hXlen (acc ++ run) extra L' t' hEX, hdata, List.append_assoc]
      · have hrlen : (data.takeWhile (· ≠ 0)).length ≤ 253 := by omega
        have h0run : 0 ∉ data.takeWhile (· ≠ 0) := by
          intro hm
          have := List.mem_takeWhile_imp hm
          simp at this
        cases hdw : data.dropWhile (· ≠ 0) with
        | nil =>
          have hdata : data = data.takeWhile (· ≠ 0) := by
            conv_lhs => rw [← List.takeWhile_append_dropWhile (p := (· ≠ 0)) (l := data)]
            rw [hdw, List.append_nil]
          rw [hdata, encode_short _ h0run hrlen] at hE
          injection hE with h1 h2
          subst h1
          subst h2
          rw [List.append_assoc, List.cons_append, List.nil_append]
          rw [readLoop_group_end acc _ extra _ (by omega) h0run, ← hdata]
        | cons r l =>
          have hr : r = 0 := dropWhile_ne_head data r l hdw
          subst hr
          have hdata : data = data.takeWhile (· ≠ 0) ++ 0 :: l := by
            conv_lhs => rw [← List.takeWhile_append_dropWhile (p := (· ≠ 0)) (l := data)]
            rw [hdw]
          rw [hdata, encode_zero _ l h0run hrlen] at hE
          injection hE with h1 h2
          subst h1
          obtain ⟨L', t', hEX, hL'⟩ := encode_cons_shape l
          rw [hEX] at h2
          subst h2
          rw [List.append_assoc, List.cons_append]
          have hstep := readLoop_group_cont acc (data.takeWhile (· ≠ 0)) (t' ++ extra)
            ((data.takeWhile (· ≠ 0)).length + 1) L' (by omega) h0run hL'
          rw [hstep, if_neg (by omega : ¬ (data.takeWhile (· ≠ 0)).length + 1 = 255)]
          have hllen : l.length ≤ n := by
            have := congrArg List.length hdata
            simp only [List.length_append, List.length_cons] at this
            omega
          rw [ih l hllen _ extra L' t' hEX]
          conv_rhs => rw [hdata]
          simp [List.append_assoc]

theorem read_encode (data extra : List Nat) :
    read (encode data ++ extra) = (.ok data, extra) := by
  obtain ⟨L, t, hE, hL⟩ := encode_cons_shape data
  rw [hE, read, List.cons_append]
  rw [List.dropWhile_cons_of_neg (by simpa using hL)]
  have := readLoop_encode_bound data.length data le_rfl [] extra L t hE
  simpa using this

end Prismo.Packet

namespace Prismo.Packet

/-- C1 (counterexample): for the empty byte string, the round trip fails:
`PacketStream.write` on `b""` returns immediately and puts nothing on the
wire, so a subsequent `PacketStream.read` of that (empty) stream raises a
timeout instead of yielding the empty payload. -/
theorem c1_empty_counterexample : (read (write [])).1 ≠ Except.ok ([] : List Nat) := by
  rw [write, if_pos rfl]
  intro h
  have hr : read [] = (.error .timeout, []) := rfl
  rw [hr] at h
  exact Except.noConfusion h

/-- C1 (amended): for every nonempty byte string `data`, decoding the
encoding over a lossless channel returns exactly `data`, consuming the
whole frame: `PacketStream.read` applied to the stream produced by
`PacketStream.write data` yields `data` and leaves nothing unread.  (The
original claim also included the empty string, which fails; see
`c1_empty_counterexample`.) -/
theorem c1_roundtrip_nonempty (data : List Nat) (hne : data ≠ [])
    (_hbytes : ∀ b ∈ data, b ≤ 255) : read (write data) = (.ok data, []) := by
  rw [write_eq_encode data hne]
  have h := read_encode data []
  rw [List.append_nil] at h
  exact h

/-- C1 witness: the round trip evaluated on the concrete payload
`[0, 0, 7]` (which contains delimiter bytes). -/
theorem c1_roundtrip_nonempty_witness : read (write [0, 0, 7]) = (.ok [0, 0, 7], []) :=
  c1_roundtrip_nonempty [0, 0, 7] (by decide) (by decide)

end Prismo.Packet

namespace Prismo.Packet

theorem resync_append (r1 r2 : List Nat) (h : 0 ∉ r1) : resync (r1 ++ 0 :: r2) = some r2 := by
  induction r1 with
  | nil => simp [resync]
  | cons a r1 ih =>
    have ha : a ≠ 0 := fun hc => h (by simp [hc])
    have hr : 0 ∉ r1 := fun hc => h (by simp [hc])
    rw [List.cons_append, resync, if_neg ha, ih hr]

/-- C9: if a delimiter byte appears inside a length-directed payload
extraction of `PacketStream.read` (a chunk of `L - 1` payload bytes that
contains a `0x00`), decoding raises the data-corruption `ValueError`,
after resynchronizing by consuming every byte up to and including the
next delimiter; the error result carries none of the frame's data.  The
first conjunct states this for the decode loop in any state (any
already-accumulated payload `acc`); the second for an entire
`PacketStream.read` call whose first chunk is corrupted. -/
theorem c9_corruption_resync :
    (∀ (acc : List Nat) (L : Nat) (chunk r1 r2 : List Nat),
        L = chunk.length + 1 → 0 ∈ chunk → 0 ∉ r1 →
        readLoop acc L (chunk ++ (r1 ++ 0 :: r2)) = (.error .corrupt, r2))
    ∧ (∀ (L : Nat) (chunk r1 r2 : List Nat),
        L = chunk.length + 1 → 0 ∈ chunk → 0 ∉ r1 →
        read (L :: (chunk ++ (r1 ++ 0 :: r2))) = (.error .corrupt, r2)) := by
  have main : ∀ (acc : List Nat) (L : Nat) (chunk r1 r2 : List Nat),
      L = chunk.length + 1 → 0 ∈ chunk → 0 ∉ r1 →
      readLoop acc L (chunk ++ (r1 ++ 0 :: r2)) = (.error .corrupt, r2) := by
    intro acc L chunk r1 r2 hL hmem h1
    subst hL
    rw [readLoop.eq_def]
    have hlen' : ¬ ((chunk ++ (r1 ++ 0 :: r2)).length < chunk.length + 1 - 1) := by
      simp only [List.length_append, List.length_cons]
      omega
    rw [if_neg hlen', Nat.add_sub_cancel, List.take_left, if_pos hmem, List.drop_left,
      resync_append r1 r2 h1]
  refine ⟨main, ?_⟩
  intro L chunk r1 r2 hL hmem h1
  have hLne : L ≠ 0 := by omega
  rw [read, List.dropWhile_cons_of_neg (by simpa using hLne)]
  exact main [] L chunk r1 r2 hL hmem h1

/-- C9 witness: a frame whose length byte promises two payload bytes but
whose chunk `[5, 0]` contains a delimiter; `read` raises corruption and
leaves the stream resynchronized past the next delimiter, at `[9]`. -/
theorem c9_corruption_resync_witness :
    read [3, 5, 0, 7, 0, 9] = (.error .corrupt, [9]) :=
  c9_corruption_resync.2 3 [5, 0] [7] [9] rfl (by decide) (by decide)

end Prismo.Packet

namespace Prismo.Packet

/-- A candidate serial port as seen by `PacketStream.__init__` during
discovery: its USB vendor/product ids and the raw bytes the device puts
on the wire in response to the handshake request. -/
structure PortInfo where
  vid : Nat
  pid : Nat
  stream : List Nat
deriving Repr, DecidableEq

/-- The `ConnectionError` raised when no candidate port matches,
carrying the expected device id it names. -/
inductive ConnErr
  | notFound (deviceId : Nat)
deriving Repr, DecidableEq

/-- The acceptance test of `PacketStream.__init__`:
`len(result) == 2 and result[0] == 0 and result[1] == device_id`. -/
def handshakeOk (deviceId : Nat) (r : List Nat) : Bool :=
  match r with
  | [a, b] => a == 0 && b == deviceId
  | _ => false

/-- The discovery loop of `PacketStream.__init__` over the indexed
candidate list: for each port with matching vid/pid, decode one framed
response (`self.read()`); accept the candidate (returning its index) if
the acceptance test passes, otherwise close its connection (the index is
recorded in the returned list of closed candidates) and continue; any
exception during the exchange also closes the candidate.  With no
candidate accepted, raise `ConnectionError` naming the device id. -/
def scan (deviceId : Nat) : List (Nat × PortInfo) → Except ConnErr Nat × List Nat
  | [] => (.error (.notFound deviceId), [])
  | (i, p) :: rest =>
    if p.vid = 0x303A ∧ p.pid = 0x1001 then
      match (read p.stream).1 with
      | .ok r =>
        if handshakeOk deviceId r then (.ok i, [])
        else
          ((scan deviceId rest).1, i :: (scan deviceId rest).2)
      | .error _ =>
        ((scan deviceId rest).1, i :: (scan deviceId rest).2)
    else scan deviceId rest

/-- `PacketStream.__init__`: scan the system's candidate ports in order.
Returns the index of the accepted port (or the raised error) and the
indices of the candidates whose connections were opened and closed. -/
def packetStreamInit (deviceId : Nat) (ports : List PortInfo) : Except ConnErr Nat × List Nat :=
  scan deviceId ports.enum

/-- C3 (counterexample): a matching candidate whose decoded handshake
response is the single byte `[0x00]` — which the claim says must be
accepted — is rejected: its connection is closed and construction fails
with the device-not-found error.  (`[1, 1, 0]` is the frame encoding of
the one-byte payload `[0]`.) -/
theorem c3_counterexample :
    (read [1, 1, 0]).1 = .ok [0]
    ∧ packetStreamInit 0 [⟨0x303A, 0x1001, [1, 1, 0]⟩] = (.error (.notFound 0), [0]) := by
  have hread : read [1, 1, 0] = (.ok [0], []) := by
    simp [read.eq_def, readLoop.eq_def]
  constructor
  · rw [hread]
  · simp [packetStreamInit, List.enum, List.enumFrom, scan, hread, handshakeOk]

/-- C3 (amended): during discovery the acceptance test passes exactly
for the two-byte response `[0x00, device_id]` — the one-byte response
`[0x00]` is not accepted; an accepted candidate ends the scan with its
index and no further closes; a matching candidate with any other decoded
response is rejected and its connection closed, and the scan continues;
if no candidate remains, construction fails with a device-not-found
error naming the expected device id. -/
theorem c3_handshake_amended :
    (∀ (deviceId : Nat) (r : List Nat), handshakeOk deviceId r = true ↔ r = [0, deviceId])
    ∧ (∀ (deviceId i : Nat) (p : PortInfo) (rest : List (Nat × PortInfo)) (r s2 : List Nat),
        p.vid = 0x303A → p.pid = 0x1001 → read p.stream = (.ok r, s2) →
        handshakeOk deviceId r = true →
        scan deviceId ((i, p) :: rest) = (.ok i, []))
    ∧ (∀ (deviceId i : Nat) (p : PortInfo) (rest : List (Nat × PortInfo)) (r s2 : List Nat),
        p.vid = 0x303A → p.pid = 0x1001 → read p.stream = (.ok r, s2) →
        handshakeOk deviceId r = false →
        scan deviceId ((i, p) :: rest)
          = ((scan deviceId rest).1, i :: (scan deviceId rest).2))
    ∧ (∀ deviceId : Nat, scan deviceId [] = (.error (.notFound deviceId), [])) := by
  refine ⟨?_, ?_, ?_, fun _ => rfl⟩
  · intro deviceId r
    match r with
    | [] => simp [handshakeOk]
    | [a] => simp [handshakeOk]
    | [a, b] => simp [handshakeOk]
    | a :: b :: c :: t => simp [handshakeOk]
  · intro deviceId i p rest r s2 hvid hpid hread hshake
    simp [scan, hvid, hpid, hread, hshake]
  · intro deviceId i p rest r s2 hvid hpid hread hshake
    simp [scan, hvid, hpid, hread, hshake]

/-- C3 witness: the amended rejection behavior evaluated on a concrete
candidate that decodes to `[0]`: it is closed and the scan falls through
to the device-not-found error. -/
theorem c3_handshake_amended_witness :
    scan 0 [(0, ⟨0x303A, 0x1001, [1, 1, 0]⟩)] = (.error (.notFound 0), [0]) :=
  c3_handshake_amended.2.2.1 0 0 ⟨0x303A, 0x1001, [1, 1, 0]⟩ [] [0] [] rfl rfl
    (by simp [read.eq_def, readLoop.eq_def]) (by decide)

end Prismo.Packet

namespace Prismo.Micro

/-- The `IndexError` raised by `ValveDriver` for an out-of-range valve
index. -/
inductive IdxErr
  | index
deriving Repr, DecidableEq

/-- The coil address `ValveDriver.__getitem__` reads:
`addr = idx + 512`. -/
def valveGetAddr (idx : Nat) : Nat := idx + 512

/-- The coil address `ValveDriver.__setitem__` writes:
`self._client.write_coil(idx, ...)`. -/
def valveSetAddr (idx : Nat) : Nat := idx

/-- `ValveDriver.__getitem__`: bounds-check the index, then read the
coil at `idx + 512` from the Modbus coil table (`coils`), reporting
`"open"` for an energized coil. -/
def valveGet (numValves : Nat) (coils : Nat → Bool) (idx : Int) : Except IdxErr String :=
  if idx < 0 ∨ (numValves : Int) ≤ idx then .error .index
  else .ok (if coils (idx.toNat + 512) then "open" else "closed")

/-- `ValveDriver.__setitem__`: bounds-check the index, then write
`state == "open"` to the coil at `idx` of the Modbus coil table. -/
def valveSet (numValves : Nat) (coils : Nat → Bool) (idx : Int) (state : String) :
    Except IdxErr (Nat → Bool) :=
  if idx < 0 ∨ (numValves : Int) ≤ idx then .error .index
  else .ok (fun a => if a = idx.toNat then state == "open" else coils a)

/-- Writing a valve and then reading the same index, composed as the
driver does it. -/
def valveSetThenGet (numValves : Nat) (coils : Nat → Bool) (idx : Int) (state : String) :
    Except IdxErr String :=
  match valveSet numValves coils idx state with
  | .error e => .error e
  | .ok coils2 => valveGet numValves coils2 idx

/-- C2 (counterexample): read and write do not address the same coil.
At index 0 the read address is 512 while the write address is 0, and
behaviorally: opening valve 0 from an all-de-energized coil table and
reading valve 0 back still reports `"closed"`, because the write landed
on coil 0 while the read looked at coil 512. -/
theorem c2_counterexample :
    valveGetAddr 0 ≠ valveSetAddr 0
    ∧ valveSetThenGet 48 (fun _ => false) 0 "open" = .ok "closed" := by
  constructor
  · decide
  · rfl

/-- C2 (amended): `ValveDriver.__getitem__` reads the fixed coil address
`idx + 512` while `ValveDriver.__setitem__` writes the fixed coil
address `idx`; the two address spaces are disjoint whenever
`num_valves ≤ 512`, so a write to any valid valve index never changes
the result of any subsequent read. -/
theorem c2_addresses_amended :
    (∀ idx : Nat, valveGetAddr idx = idx + 512 ∧ valveSetAddr idx = idx)
    ∧ (∀ (numValves : Nat) (coils : Nat → Bool) (i j : Int) (state : String)
          (coils2 : Nat → Bool),
        numValves ≤ 512 →
        valveSet numValves coils i state = .ok coils2 →
        valveGet numValves coils2 j = valveGet numValves coils j) := by
  refine ⟨fun idx => ⟨rfl, rfl⟩, ?_⟩
  intro numValves coils i j state coils2 hnum hset
  rw [valveSet] at hset
  by_cases hib : i < 0 ∨ (numValves : Int) ≤ i
  · rw [if_pos hib] at hset
    exact absurd hset (by simp)
  · rw [if_neg hib] at hset
    have hc2 : coils2 = fun a => if a = i.toNat then state == "open" else coils a :=
      (Except.ok.injEq .. ▸ hset).symm
    push_neg at hib
    have hi512 : i.toNat < 512 := by omega
    rw [valveGet, valveGet]
    by_cases hjb : j < 0 ∨ (numValves : Int) ≤ j
    · rw [if_pos hjb, if_pos hjb]
    · rw [if_neg hjb, if_neg hjb, hc2]
      have hne : ¬ (j.toNat + 512 = i.toNat) := by omega
      simp only [hne, if_false, ite_false]

/-- C2 witness: the amended independence applied at `num_valves = 48`,
writing `"open"` to valve 0 over the all-de-energized table and reading
valve 0: the read is unchanged. -/
theorem c2_addresses_amended_witness :
    valveGet 48 (fun a => if a = (0 : Int).toNat then "open" == "open" else false) 0
      = valveGet 48 (fun _ => false) 0 :=
  c2_addresses_amended.2 48 (fun _ => false) 0 0 "open" _ (by decide) rfl

end Prismo.Micro

namespace Prismo.Micro

/-- A logical tree-valve state label: either an integer or a string
(Python lets the `states` table mix both). -/
inductive Label
  | num (n : Nat)
  | str (s : String)
deriving Repr, DecidableEq

/-- The configuration of a `TreeValves` group: the valve indices of the
zero paths, of the one paths, and the label → pattern table
(`_labels_to_states`) in insertion order.  The valve driver is
abstracted as a coherent store `Nat → Bool` (`true` = open) indexed by
valve number: `driver[v]` reads and writes the same entry (the Modbus
read/write address split inside `ValveDriver` is treated separately, in
the `valveGet`/`valveSet` development above). -/
structure TreeValves where
  zeros : List Nat
  ones : List Nat
  labels : List (Label × String)
deriving Repr, DecidableEq

/-- `_states_to_labels`: the dict comprehension
`{value: key for key, value in processed.items()}` — on duplicate
pattern values the later entry wins, hence the lookup over the reversed
list. -/
def statesToLabels (labels : List (Label × String)) (s : String) : Option Label :=
  ((labels.map (fun p => (p.2, p.1))).reverse).lookup s

/-- Zero-padded binary rendering `f"{i:0{n}b}"` for `i < 2 ^ n`. -/
def binStr (n i : Nat) : String :=
  ⟨(List.range n).map (fun j => if i / 2 ^ (n - 1 - j) % 2 = 1 then '1' else '0')⟩

/-- The default label table built by `TreeValves.__init__` when no
states are given: `{s: f"{i:0{len(zeros)}b}" for i, s in
enumerate(range(2 ** len(zeros)))}`. -/
def defaultLabels (n : Nat) : List (Label × String) :=
  (List.range (2 ^ n)).map (fun i => (.num i, binStr n i))

/-- The per-pair classification of the `state` getter: both open → `'o'`,
zero-side only → `'0'`, one-side only → `'1'`, neither → `'x'`. -/
def pairChar (z o : Bool) : Char :=
  if z && o then 'o' else if z then '0' else if o then '1' else 'x'

/-- The pattern string the `state` getter builds from the driver
state. -/
def treePattern (tv : TreeValves) (st : Nat → Bool) : String :=
  ⟨(List.range tv.zeros.length).map
    (fun i => pairChar (st (tv.zeros.getD i 0)) (st (tv.ones.getD i 0)))⟩

/-- The `TreeValves.state` getter: all member valves open → `"open"`,
none open → `"closed"`, else look the pattern up in the label table and
answer `"invalid"` when it is not registered. -/
def treeState (tv : TreeValves) (st : Nat → Bool) : Label :=
  if (tv.zeros ++ tv.ones).all st then .str "open"
  else if ((tv.zeros ++ tv.ones).any st) = false then .str "closed"
  else
    match statesToLabels tv.labels (treePattern tv st) with
    | some l => l
    | none => .str "invalid"

/-- The sequence of driver writes issued by the `TreeValves.state`
setter for a given label, in program order: the aliases `"open"` and
`"closed"` write all `2 N` valves directly; any other label is resolved
through the table (an unknown label raises `KeyError` before any write,
hence the empty trace), then all `2 N` valves are written closed, then
the pattern's opens are issued. -/
def treeSetTrace (tv : TreeValves) (label : Label) : List (Nat × Bool) :=
  if label = .str "open" then (tv.zeros ++ tv.ones).map (fun v => (v, true))
  else if label = .str "closed" then (tv.zeros ++ tv.ones).map (fun v => (v, false))
  else
    match tv.labels.lookup label with
    | none => []
    | some pat =>
      ((tv.zeros ++ tv.ones).map (fun v => (v, false)))
        ++ (pat.data.enum.map (fun ic =>
              if ic.2 = 'o' then [(tv.zeros.getD ic.1 0, true), (tv.ones.getD ic.1 0, true)]
              else if ic.2 = '1' then [(tv.ones.getD ic.1 0, true)]
              else if ic.2 = '0' then [(tv.zeros.getD ic.1 0, true)]
              else [])).flatten

/-- One driver write `driver[v] = state`. -/
def driverSet (st : Nat → Bool) (v : Nat) (b : Bool) : Nat → Bool :=
  fun w => if w = v then b else st w

/-- Apply a write trace to the driver state in order. -/
def applyTrace (st : Nat → Bool) (tr : List (Nat × Bool)) : Nat → Bool :=
  tr.foldl (fun s p => driverSet s p.1 p.2) st

/-- The `TreeValves.state` setter: its writes applied to the driver. -/
def treeSet (tv : TreeValves) (st : Nat → Bool) (label : Label) : Nat → Bool :=
  applyTrace st (treeSetTrace tv label)

/-- The `N = 2` tree-valve group with the default label table, as in the
spec's testable property: zero-path valves 0 and 1, one-path valves
2 and 3. -/
def treeValvesN2 : TreeValves := ⟨[0, 1], [2, 3], defaultLabels 2⟩

end Prismo.Micro

namespace Prismo.Micro

/-- C5: whenever `TreeValves.state` is set to a label other than the
aliases `"open"` and `"closed"`, every `"open"` write in the issued
driver-write sequence is preceded by `"closed"` writes to all `2 N`
member valves: the setter closes everything before it opens anything.
(An unknown label raises `KeyError` before any write, so the property
holds vacuously there.) -/
theorem c5_close_before_open (tv : TreeValves) (label : Label)
    (ho : label ≠ .str "open") (hc : label ≠ .str "closed") :
    ∀ (i v : Nat), (treeSetTrace tv label)[i]? = some (v, true) →
      ∀ w ∈ tv.zeros ++ tv.ones, ∃ j, j < i ∧ (treeSetTrace tv label)[j]? = some (w, false) := by
  intro i v hiv w hw
  cases hlk : tv.labels.lookup label with
  | none =>
    simp only [treeSetTrace, if_neg ho, if_neg hc, hlk] at hiv
    simp at hiv
  | some pat =>
    simp only [treeSetTrace, if_neg ho, if_neg hc, hlk] at hiv ⊢
    have hilen : ((tv.zeros ++ tv.ones).map (fun v => (v, false))).length ≤ i := by
      by_contra hlt
      push_neg at hlt
      rw [List.getElem?_append_left hlt] at hiv
      rw [List.getElem?_map] at hiv
      cases hall : (tv.zeros ++ tv.ones)[i]? with
      | none => rw [hall] at hiv; simp at hiv
      | some a =>
        rw [hall] at hiv
        simp at hiv
    obtain ⟨k, hkw⟩ := List.mem_iff_getElem?.mp hw
    have hklt : k < (tv.zeros ++ tv.ones).length := by
      by_contra hge
      push_neg at hge
      rw [List.getElem?_eq_none hge] at hkw
      exact Option.noConfusion hkw
    have hklt2 : k < ((tv.zeros ++ tv.ones).map (fun v => (v, false))).length := by
      simpa using hklt
    refine ⟨k, by omega, ?_⟩
    rw [List.getElem?_append_left hklt2, List.getElem?_map, hkw]
    rfl

/-- C5 witness: on the `N = 2` group with label `1` (pattern `"01"`),
the open write of valve 0 at trace position 4 is preceded by a closed
write of member valve 3. -/
theorem c5_close_before_open_witness :
    ∃ j, j < 4 ∧ (treeSetTrace treeValvesN2 (.num 1))[j]? = some (3, false) :=
  c5_close_before_open treeValvesN2 (.num 1) (by decide) (by decide) 4 0 (by decide) 3
    (by decide)

/-- C6: for the `N = 2` group with default labels: setting state `0`
then reading returns `0`; setting `"open"` opens all four member
valves (from any driver state); setting `"closed"` closes all four; and
any driver state that is neither all-open nor all-closed whose induced
pattern is not registered in the label table reads back `"invalid"`. -/
theorem c6_tree_roundtrip :
    treeState treeValvesN2 (treeSet treeValvesN2 (fun _ => false) (.num 0)) = .num 0
    ∧ (∀ st : Nat → Bool, ∀ v ∈ treeValvesN2.zeros ++ treeValvesN2.ones,
        treeSet treeValvesN2 st (.str "open") v = true)
    ∧ (∀ st : Nat → Bool, ∀ v ∈ treeValvesN2.zeros ++ treeValvesN2.ones,
        treeSet treeValvesN2 st (.str "closed") v = false)
    ∧ (∀ st : Nat → Bool,
        (treeValvesN2.zeros ++ treeValvesN2.ones).all st = false →
        (treeValvesN2.zeros ++ treeValvesN2.ones).any st = true →
        statesToLabels treeValvesN2.labels (treePattern treeValvesN2 st) = none →
        treeState treeValvesN2 st = .str "invalid") := by
  refine ⟨by decide, ?_, ?_, ?_⟩
  · intro st v hv
    fin_cases hv <;> rfl
  · intro st v hv
    fin_cases hv <;> rfl
  · intro st hall hany hlook
    rw [treeState, if_neg (by simp [hall]), if_neg (by simp [hany]), hlook]

/-- C6 witness: the inconsistent configuration with pair one
wildcard-open (valves 0 and 2 open) and pair two fully closed induces
the unregistered pattern `"ox"` and reads back `"invalid"`; and the
`"open"` alias evaluated at member valve 2 from the all-closed state. -/
theorem c6_tree_roundtrip_witness :
    treeState treeValvesN2 (fun v => v == 0 || v == 2) = .str "invalid"
    ∧ treeSet treeValvesN2 (fun _ => false) (.str "open") 2 = true :=
  ⟨c6_tree_roundtrip.2.2.2 (fun v => v == 0 || v == 2) (by decide) (by decide) (by decide),
   c6_tree_roundtrip.2.1 (fun _ => false) 2 (by decide)⟩

end Prismo.Micro

namespace Prismo.Ports

/-- The module-level registry state of `ports.py`: `_serials` (port name
→ physical connection, here a connection id), `_refcounts`, the supply
of fresh connection ids, and the set of physical connections currently
open. -/
structure RegState where
  serials : List (String × Nat)
  refcounts : List (String × Int)
  nextConn : Nat
  openConns : List Nat
deriving Repr, DecidableEq

/-- A `Port` handle: the port name it refers to and its idempotency flag
`_closed`. -/
structure Handle where
  name : String
  closed : Bool
deriving Repr, DecidableEq

/-- Python dict assignment `d[k] = v`: replace the existing entry or
append a new one. -/
def rcSet : List (String × Int) → String → Int → List (String × Int)
  | [], k, v => [(k, v)]
  | (k0, v0) :: t, k, v => if k0 = k then (k, v) :: t else (k0, v0) :: rcSet t k v

/-- Python dict read `d[k]` on a key known to be present (0 as the
unused default). -/
def rcGet (rc : List (String × Int)) (k : String) : Int :=
  (rc.lookup k).getD 0

/-- `Port.__init__` for an explicit port name: under the class lock, if
the port is not yet registered open a fresh connection with reference
count 0, then increment the count; the returned handle is not closed. -/
def acquire (st : RegState) (port : String) : Handle × RegState :=
  let st1 :=
    if (st.serials.lookup port).isNone then
      { serials := st.serials ++ [(port, st.nextConn)],
        refcounts := st.refcounts ++ [(port, 0)],
        nextConn := st.nextConn + 1,
        openConns := st.openConns ++ [st.nextConn] }
    else st
  (⟨port, false⟩,
   { st1 with refcounts := rcSet st1.refcounts port (rcGet st1.refcounts port + 1) })

/-- `Port.close`: a no-op on an already-closed handle; otherwise mark
the handle closed and decrement the count; when it reaches zero, pop the
registry entries and close the physical connection. -/
def close (h : Handle) (st : RegState) : Handle × RegState :=
  if h.closed then (h, st)
  else
    let rc := rcGet st.refcounts h.name - 1
    let st1 : RegState := { st with refcounts := rcSet st.refcounts h.name rc }
    if 0 < rc then (⟨h.name, true⟩, st1)
    else
      let conn := (st1.serials.lookup h.name).getD 0
      (⟨h.name, true⟩,
       { serials := st1.serials.filter (fun p => p.1 ≠ h.name),
         refcounts := st1.refcounts.filter (fun p => p.1 ≠ h.name),
         nextConn := st1.nextConn,
         openConns := st1.openConns.filter (fun c => c ≠ conn) })

/-- C8: the registry keeps at most one physical connection per port
name.  First conjunct, the full scenario from the empty registry:
acquiring `"p"` twice yields one registry entry backed by one open
connection with reference count 2; closing one handle leaves the
connection open at count 1; closing that handle again changes nothing;
closing the second handle closes the connection and removes the entry;
a fresh acquire then opens a new (distinct) connection.  Second
conjunct: acquiring a name that is already registered never opens a new
connection or touches the registry's connection table. -/
theorem c8_port_registry :
    (let st0 : RegState := ⟨[], [], 0, []⟩
     let a1 := acquire st0 "p"
     let a2 := acquire a1.2 "p"
     a2.2.serials = [("p", 0)] ∧ a2.2.openConns = [0] ∧ rcGet a2.2.refcounts "p" = 2
     ∧ (let c1 := close a1.1 a2.2
        c1.2.openConns = [0] ∧ rcGet c1.2.refcounts "p" = 1
        ∧ close c1.1 c1.2 = (c1.1, c1.2)
        ∧ (let c2 := close a2.1 c1.2
           c2.2.openConns = [] ∧ c2.2.serials = []
           ∧ (let a3 := acquire c2.2 "p"
              a3.2.serials = [("p", 1)] ∧ a3.2.openConns = [1]))))
    ∧ (∀ (st : RegState) (port : String),
        (st.serials.lookup port).isSome →
        (acquire st port).2.serials = st.serials
          ∧ (acquire st port).2.openConns = st.openConns
          ∧ (acquire st port).2.nextConn = st.nextConn) := by
  constructor
  · decide
  · intro st port hsome
    have hnone : (st.serials.lookup port).isNone = false := by
      cases h : st.serials.lookup port
      · rw [h] at hsome
        exact absurd hsome (by simp)
      · rfl
    simp [acquire, hnone]

/-- C8 witness: the already-registered case applied to a concrete
one-entry registry. -/
theorem c8_port_registry_witness :
    (acquire ⟨[("p", 0)], [("p", 1)], 1, [0]⟩ "p").2.serials = [("p", 0)]
      ∧ (acquire ⟨[("p", 0)], [("p", 1)], 1, [0]⟩ "p").2.openConns = [0]
      ∧ (acquire ⟨[("p", 0)], [("p", 1)], 1, [0]⟩ "p").2.nextConn = 1 :=
  c8_port_registry.2 ⟨[("p", 0)], [("p", 1)], 1, [0]⟩ "p" (by decide)

end Prismo.Ports

namespace Prismo.Fluidic

/-- Errors raised by `FlowController._read_packet`: the `struct.error`
for a response too short to carry an opcode, the device-failure
`RuntimeError` for the FAIL sentinel, and the protocol-mismatch
`RuntimeError` carrying the unexpected opcode. -/
inductive ProtoErr
  | structError
  | deviceFailure
  | unexpected (code : Nat)
deriving Repr, DecidableEq

/-- The test `assert_code is not None and code != assert_code`. -/
def assertMismatch (assertCode : Option Nat) (code : Nat) : Bool :=
  match assertCode with
  | some c => code != c
  | none => false

/-- `FlowController._read_packet` on an already-decoded response frame:
unpack the opcode byte, raise on the FAIL sentinel `0xFF`, raise on an
opcode mismatch with the requested opcode, otherwise hand the payload
bytes to the per-opcode fixed-layout parse (abstracted here as returning
the payload slice `response[1:]`, which is all the claim needs). -/
def readPacket (assertCode : Option Nat) (response : List Nat) : Except ProtoErr (List Nat) :=
  match response with
  | [] => .error .structError
  | code :: payload =>
    if code = 0xFF then .error .deviceFailure
    else if assertMismatch assertCode code then .error (.unexpected code)
    else .ok payload

/-- C7: for every response frame with opcode byte `code`: if `code` is
the FAIL sentinel `0xFF` a device-failure error is raised regardless of
the remaining payload bytes; otherwise a response whose opcode differs
from the requested one raises a protocol error; and a payload value is
returned only when the opcodes match (in which case it is the payload
slice). -/
theorem c7_opcode_check (c : Nat) (resp : List Nat) (code : Nat) (payload : List Nat)
    (hresp : resp = code :: payload) :
    (code = 0xFF → readPacket (some c) resp = .error .deviceFailure)
    ∧ (code ≠ 0xFF → code ≠ c → readPacket (some c) resp = .error (.unexpected code))
    ∧ (∀ v, readPacket (some c) resp = .ok v → code = c ∧ v = payload) := by
  subst hresp
  refine ⟨?_, ?_, ?_⟩
  · intro h255
    simp [readPacket, h255]
  · intro h255 hne
    simp [readPacket, h255, assertMismatch, hne]
  · intro v hok
    by_cases h255 : code = 0xFF
    · simp [readPacket, h255] at hok
    · by_cases hc : code = c
      · subst hc
        refine ⟨rfl, ?_⟩
        simp [readPacket, assertMismatch, h255] at hok
        exact hok.symm
      · simp [readPacket, h255, assertMismatch, hc] at hok

/-- C7 witness: a FAIL response with arbitrary payload bytes raises the
device failure; an opcode-5 response to an opcode-2 request raises the
protocol error. -/
theorem c7_opcode_check_witness :
    readPacket (some 2) [255, 7] = .error .deviceFailure
    ∧ readPacket (some 2) [5, 9] = .error (.unexpected 5) :=
  ⟨(c7_opcode_check 2 [255, 7] 255 [7] rfl).1 rfl,
   (c7_opcode_check 2 [5, 9] 5 [9] rfl).2.1 (by decide) (by decide)⟩

/-- Row letters accepted by the well regex `[A-H]`. -/
def isRowChar (c : Char) : Bool := 'A' ≤ c && c ≤ 'H'

/-- Digits `[0-9]`. -/
def isDigitChar (c : Char) : Bool := '0' ≤ c && c ≤ '9'

/-- `re.fullmatch(r"[A-H]1?[0-9]", pos)`: a row letter, an optional
leading `'1'`, and a digit. -/
def matchWellRe (s : List Char) : Bool :=
  match s with
  | [c, d] => isRowChar c && isDigitChar d
  | [c, d1, d2] => isRowChar c && (d1 == '1') && isDigitChar d2
  | _ => false

/-- `int(pos[1:])` on the digit tail. -/
def colNumber (s : List Char) : Nat :=
  (s.drop 1).foldl (fun a c => 10 * a + (c.toNat - 48)) 0

/-- `ord(pos[0]) - ord("A")`. -/
def rowNumber (s : List Char) : Nat := (s.headD 'A').toNat - 65

/-- The `ValueError` of the `Sipper.well` setter for a malformed plate
position. -/
inductive WellErr
  | badFormat
deriving Repr, DecidableEq

/-- The validation and grid decomposition of the `Sipper.well` setter:
`"none"` is the reserved parked label; otherwise the label is passed
through the alias mapping, matched against `[A-H]1?[0-9]` with the
column capped at 12, and decomposed into the 0-indexed row
`ord(pos[0]) - ord("A")` and column `int(pos[1:]) - 1` (a Python `int`,
hence `Int` here).  The xyz motion computed from `(row, col)` is not
modelled; the claim is about validation. -/
def wellSet (mapping : List (String × String)) (w : String) :
    Except WellErr (Option (Nat × Int)) :=
  if w = "none" then .ok none
  else
    let pos := ((mapping.lookup w).getD w).data
    if ¬ matchWellRe pos ∨ 12 < colNumber pos then .error .badFormat
    else .ok (some (rowNumber pos, (colNumber pos : Int) - 1))

/-- C4: the setter does raise for `"I1"` (row out of range) and `"A13"`
(column out of range), but the claim that every accepted label denotes a
well inside the 8 × 12 grid fails: `"A0"` matches the regex
`[A-H]1?[0-9]`, passes the `int(pos[1:]) > 12` cap, and is accepted with
0-indexed column `-1` — outside the grid, and outside the code's own
advertised format `[A-Z][1-12]`. -/
theorem c4_well_eval :
    wellSet [] "I1" = .error .badFormat
    ∧ wellSet [] "A13" = .error .badFormat
    ∧ wellSet [] "A0" = .ok (some (0, -1)) := by
  refine ⟨rfl, rfl, rfl⟩

/-- The number of parameters of `PacketStream.__init__` without a
default: `device_id` (only `timeout_s` is defaulted). -/
def packetStreamRequiredArgs : Nat := 1

/-- Python call-argument binding: a call providing fewer positional
arguments than the required parameter count raises `TypeError` before
the callee's body runs. -/
def callBindsOk (required provided : Nat) : Bool := required ≤ provided

/-- The `PyErr` for a failed argument binding. -/
inductive PyErr
  | typeError
deriving Repr, DecidableEq

/-- `FlowController.__init__`: sets `self.name`, then evaluates
`packet.PacketStream()` — a call with zero arguments against a signature
requiring `device_id`.  The second component lists the device I/O the
constructor performs; the discovery I/O inside `PacketStream.__init__`
could only happen after a successful binding. -/
def flowControllerInit (name : String) : Except PyErr String × List String :=
  if callBindsOk packetStreamRequiredArgs 0 then (.ok name, ["packetstream-discovery-io"])
  else (.error .typeError, [])

/-- C10: for every name, constructing `FlowController(name)` raises
`TypeError` before any device I/O is attempted, because
`PacketStream.__init__` requires a `device_id` argument that the call
`packet.PacketStream()` does not supply; no `FlowController` is ever
successfully constructed. -/
theorem c10_flowcontroller_init (name : String) :
    flowControllerInit name = (.error .typeError, []) := rfl

end Prismo.Fluidic
